import Mathlib

/-!
Verification development for an in-memory file-system simulator
(three directory-structure modes: single-level, two-level, hierarchical).

The development shallowly embeds the Python source (`src/models.py`,
`src/filesystem.py`). Mutable object state becomes explicit state passing:
the manager state `FS` carries the current directory as a zipper
(the directory's own data plus a list of `Crumb`s recording, for each
ancestor, its metadata and the siblings to the left and right of the
child on the path), which models Python's parent back-references and the
`current_directory` cursor without aliasing. Wall-clock reads
(`datetime.now()`) are modelled by an explicit `t : Nat` parameter passed
to each operation; `random.randint(1,100)` in `create_file` is modelled
by an explicit `randKB` parameter. Each mutating operation returns the
new state together with the `(success, message)` pair the Python method
returns.
-/

/-- Splitting a character list at every occurrence of a separator
character, keeping empty pieces: the behaviour of Python `str.split(sep)`
for a one-character separator. (A structurally recursive stand-in for the
library split, so that terms evaluate inside the kernel.) -/
def splitCharAux (sep : Char) : List Char → List Char → List (List Char)
  | [], acc => [acc.reverse]
  | c :: cs, acc =>
    if c = sep then acc.reverse :: splitCharAux sep cs []
    else splitCharAux sep cs (c :: acc)

/-- Python `s.split(sep)` for a one-character separator. -/
def pySplit (s : String) (sep : Char) : List String :=
  (splitCharAux sep s.data []).map (fun l => ⟨l⟩)

/-- Python `path.startswith("/")`. -/
def startsWithSlash (s : String) : Bool :=
  s.data.head? == some '/'

/-- Python `str.upper()`, character-wise. -/
def pyToUpper (s : String) : String :=
  ⟨s.data.map Char.toUpper⟩

/-- Python `str.lower()`, character-wise. -/
def pyToLower (s : String) : String :=
  ⟨s.data.map Char.toLower⟩

/-- Embeds `FileNode.__init__`'s extension derivation:
`name.split('.')[-1] if '.' in name else ""`. -/
def extOf (name : String) : String :=
  if name.data.contains '.' then (pySplit name '.').getLastD "" else ""

/-- One-decimal rendering of `num / den`, modelling Python's `f"{x:.1f}"`
(round half to even) for the exactly-representable quotients that arise here. -/
def oneDecimal (num den : Nat) : String :=
  let s := num * 10
  let q := s / den
  let r := s % den
  let q := if den < 2 * r then q + 1
           else if 2 * r < den then q
           else if q % 2 = 1 then q + 1 else q
  toString (q / 10) ++ "." ++ toString (q % 10)

/-- Embeds `BaseNode.format_size`: bytes below 1024 as `B`, below 1024²
as one-decimal `KB`, else one-decimal `MB`. -/
def format_size (size : Nat) : String :=
  if size < 1024 then toString size ++ " B"
  else if size < 1024 * 1024 then oneDecimal size 1024 ++ " KB"
  else oneDecimal size (1024 * 1024) ++ " MB"

/-- Embeds `FileNode.get_file_type`: fixed lookup on the lower-cased
extension, `"<EXT> File"` for unmapped non-empty extensions, else
`"Unknown File Type"`. -/
def get_file_type (ext : String) : String :=
  let e := pyToLower ext
  if e = "pdf" then "PDF Document"
  else if e = "doc" then "Word Document"
  else if e = "docx" then "Word Document"
  else if e = "txt" then "Text Document"
  else if e = "png" then "PNG Image"
  else if e = "jpg" then "JPEG Image"
  else if e = "jpeg" then "JPEG Image"
  else if e = "mp3" then "Audio File"
  else if e = "mp4" then "Video File"
  else if e ≠ "" then pyToUpper e ++ " File"
  else "Unknown File Type"

/-- Models `datetime.now().strftime("%I:%M %p")` for an abstract timestamp
`t` read as minutes; the wall clock is external to the program, so `t` is
threaded as a parameter and this formatter is its 12-hour rendering. -/
def strftimeClock (t : Nat) : String :=
  let m := t % 1440
  let h24 := m / 60
  let mins := m % 60
  let h12 := if h24 % 12 = 0 then 12 else h24 % 12
  let pad := fun (n : Nat) => if n < 10 then "0" ++ toString n else toString n
  pad h12 ++ ":" ++ pad mins ++ " " ++ (if h24 < 12 then "AM" else "PM")

/-- Models `strftime("%d-%m-%Y %I:%M %p")` (used by `get_info`) over the
abstract timestamp; the calendar part is a computable stand-in since the
date arithmetic lives in the external datetime library. -/
def strftimeCreated (t : Nat) : String :=
  let d := t / 1440
  let pad := fun (n : Nat) => if n < 10 then "0" ++ toString n else toString n
  pad (d % 30 + 1) ++ "-" ++ pad (d / 30 % 12 + 1) ++ "-" ++ toString (2024 + d / 360)
    ++ " " ++ strftimeClock t

/-- Models `strftime("%b %d, %H:%M")` (used by `list_contents`) over the
abstract timestamp, with the same stand-in calendar as `strftimeCreated`. -/
def strftimeListed (t : Nat) : String :=
  let d := t / 1440
  let m := t % 1440
  let pad := fun (n : Nat) => if n < 10 then "0" ++ toString n else toString n
  let months := ["Jan", "Feb", "Mar", "Apr", "May", "Jun",
                 "Jul", "Aug", "Sep", "Oct", "Nov", "Dec"]
  months.getD (d / 30 % 12) "Jan" ++ " " ++ pad (d % 30 + 1) ++ ", "
    ++ pad (m / 60) ++ ":" ++ pad (m % 60)

/-- Embeds `FileSystemManager._log_operation`: prefixes the message with
the formatted timestamp. -/
def logLine (t : Nat) (message : String) : String :=
  "[" ++ strftimeClock t ++ "] " ++ message

/-- A node of the tree: embeds `FileNode` (name, created_at, modified_at,
size, access_mode, extension) and `DirectoryNode` (name, created_at,
modified_at, size, access_mode, children). Python's `children` dict keyed
by name, insertion-ordered, becomes an ordered list; `add_child` always
keys by `node.name`, so the key is the stored node's name. The `parent`
back-reference is represented by the zipper below, never stored in the
node. -/
inductive Node where
  | file (name : String) (created modified size : Nat) (access : String) (ext : String)
  | dir (name : String) (created modified size : Nat) (access : String)
      (children : List Node)

/-- The name attribute common to both node variants. -/
def Node.name : Node → String
  | .file n _ _ _ _ _ => n
  | .dir n _ _ _ _ _ => n

/-- The created_at attribute common to both node variants. -/
def Node.created : Node → Nat
  | .file _ c _ _ _ _ => c
  | .dir _ c _ _ _ _ => c

/-- The modified_at attribute common to both node variants. -/
def Node.modified : Node → Nat
  | .file _ _ m _ _ _ => m
  | .dir _ _ m _ _ _ => m

/-- The size attribute common to both node variants. -/
def Node.size : Node → Nat
  | .file _ _ _ s _ _ => s
  | .dir _ _ _ s _ _ => s

/-- The access_mode attribute common to both node variants. -/
def Node.access : Node → String
  | .file _ _ _ _ a _ => a
  | .dir _ _ _ _ a _ => a

/-- Embeds `isinstance(node, DirectoryNode)`. -/
def Node.isDir : Node → Bool
  | .file _ _ _ _ _ _ => false
  | .dir _ _ _ _ _ _ => true

/-- The children of a directory node (empty for files, which have none). -/
def Node.childrenOf : Node → List Node
  | .file _ _ _ _ _ _ => []
  | .dir _ _ _ _ _ ch => ch

/-- The current directory's own attributes, flattened out of the zipper:
this is the `DirectoryNode` the cursor points at. -/
structure DirNode where
  name : String
  created : Nat
  modified : Nat
  size : Nat
  access : String
  children : List Node

/-- Repack a cursor directory as a tree node. -/
def DirNode.toNode (d : DirNode) : Node :=
  .dir d.name d.created d.modified d.size d.access d.children

/-- One level of zipper context: the attributes of the parent directory on
the cursor path, together with the siblings before and after the child on
the path (preserving the dict's insertion order). This embeds the Python
`parent` back-reference chain. -/
structure Crumb where
  name : String
  created : Nat
  modified : Nat
  size : Nat
  access : String
  left : List Node
  right : List Node

/-- Embeds `DirectoryNode.add_child`: fails on a name collision, else
inserts at the end of the ordered map, (re)sets the child's parent —
implicit here, the child sits in this directory's list — and updates the
directory's modified time. -/
def DirNode.add_child (d : DirNode) (node : Node) (t : Nat) : DirNode × Bool :=
  if d.children.any (fun c => c.name == node.name) then (d, false)
  else ({ d with children := d.children ++ [node], modified := t }, true)

/-- Embeds `DirectoryNode.remove_child`: fails if the name is absent, else
deletes that key and updates the modified time. -/
def DirNode.remove_child (d : DirNode) (name : String) (t : Nat) : DirNode × Bool :=
  if d.children.any (fun c => c.name == name) then
    ({ d with children := d.children.eraseP (fun c => c.name == name), modified := t }, true)
  else (d, false)

/-- Embeds `DirectoryNode.get_child`: dict lookup by name. -/
def DirNode.get_child (d : DirNode) (name : String) : Option Node :=
  d.children.find? (fun c => c.name == name)

/-- Embeds `DirectoryNode.has_child`. -/
def DirNode.has_child (d : DirNode) (name : String) : Bool :=
  d.children.any (fun c => c.name == name)

/-- Embeds `DirectoryNode.is_empty`. -/
def DirNode.is_empty (d : DirNode) : Bool :=
  d.children.isEmpty

/-- The mode string constants of class `FSMode`. -/
def FSMode.SINGLE_LEVEL : String := "single"

/-- The mode string constant for two-level mode. -/
def FSMode.TWO_LEVEL : String := "two-level"

/-- The mode string constant for hierarchical mode. -/
def FSMode.HIERARCHICAL : String := "hierarchical"

/-- The manager state of `FileSystemManager`: root tree and cursor are the
zipper `(cwd, crumbs)` — `crumbs = []` means the cursor is the root — plus
the active mode, the `max_depth` constant and the operation log. -/
structure FS where
  cwd : DirNode
  crumbs : List Crumb
  mode : String
  maxDepth : Nat
  operationLog : List String

/-- Rebuild the root directory from the zipper (walking all parent
references up to the node with `parent is None`). -/
def plug (d : DirNode) : List Crumb → DirNode
  | [] => d
  | c :: cs => plug ⟨c.name, c.created, c.modified, c.size, c.access,
      c.left ++ d.toNode :: c.right⟩ cs

/-- Embeds `DirectoryNode.get_depth` of the cursor: the number of parent
hops to the root, which is the zipper context's length. -/
def FS.depth (st : FS) : Nat := st.crumbs.length

/-- Embeds `FileSystemManager.__init__`: empty-named root, cursor at root,
hierarchical mode, `max_depth = 10`, empty log. -/
def FS.init (t : Nat) : FS :=
  ⟨⟨"", t, t, 0, "Read / Write", []⟩, [], FSMode.HIERARCHICAL, 10, []⟩

/-- Embeds `FileSystemManager._validate_name`: empty names, the nine
forbidden characters (reported in the source's list order), and the
255-character bound. -/
def _validate_name (name : String) : Bool × String :=
  if name = "" then (false, "Name cannot be empty")
  else
    match (['/', '\\', ':', '*', '?', '\"', '<', '>', '|']).find?
        (fun c => name.data.contains c) with
    | some c => (false, "Invalid character '" ++ c.toString ++ "' in name")
    | none =>
      if name.length > 255 then
        (false, "Name exceeds maximum length of 255 characters")
      else (true, "")

/-- Embeds `FileSystemManager.set_mode`: unrecognized strings fail with
the invalid-mode message and change nothing; recognized modes are stored
and `_reset_filesystem` replaces the root by a fresh empty directory,
moves the cursor to it and clears the log. -/
def set_mode (st : FS) (mode : String) (t : Nat) : FS × Bool × String :=
  if mode = FSMode.SINGLE_LEVEL ∨ mode = FSMode.TWO_LEVEL ∨ mode = FSMode.HIERARCHICAL then
    (⟨⟨"", t, t, 0, "Read / Write", []⟩, [], mode, st.maxDepth, []⟩, true,
      "Switched to " ++ pyToUpper mode ++ " Directory - Root cleared")
  else
    (st, false, "Invalid mode. Use: single, two-level, or hierarchical")

/-- Embeds `FileSystemManager.create_file`. `size?` is the optional size
argument; `randKB` models the external draw `random.randint(1, 100)` used
when the size is omitted; `t` models `datetime.now()`. -/
def create_file (st : FS) (name : String) (size? : Option Nat) (randKB t : Nat) :
    FS × Bool × String :=
  let v := _validate_name name
  if v.fst then
    if st.cwd.has_child name then
      (st, false, "File '" ++ name ++ "' already exists")
    else
      let size := match size? with
        | some s => s
        | none => randKB * 1024
      let fileNode : Node := .file name t t size "Read / Write" (extOf name)
      let res := st.cwd.add_child fileNode t
      if res.snd then
        let dirName := if st.cwd.name ≠ "" then st.cwd.name else "Root"
        ({ st with
            cwd := res.fst
            operationLog := st.operationLog ++
              [logLine t ("File '" ++ name ++ "' created in " ++ dirName)] },
          true, "Created file '" ++ name ++ "' (" ++ format_size size ++ ")")
      else (st, false, "Failed to create file '" ++ name ++ "'")
  else (st, false, v.snd)

/-- Embeds `FileSystemManager.create_directory`: name validation first,
then the mode-specific depth rules, then the collision check, then
insertion and logging. -/
def create_directory (st : FS) (name : String) (t : Nat) : FS × Bool × String :=
  let v := _validate_name name
  if v.fst then
    if st.mode = FSMode.SINGLE_LEVEL then
      (st, false, "Error: Subdirectories not allowed in Single-Level structure")
    else if st.mode = FSMode.TWO_LEVEL ∧ 1 ≤ st.depth then
      (st, false, "Error: Maximum depth (2 levels) exceeded in Two-Level structure")
    else if st.mode = FSMode.HIERARCHICAL ∧ st.maxDepth ≤ st.depth then
      (st, false, "Error: Maximum depth (" ++ toString st.maxDepth ++ " levels) exceeded")
    else if st.cwd.has_child name then
      (st, false, "Directory '" ++ name ++ "' already exists")
    else
      let dirNode : Node := .dir name t t 0 "Read / Write" []
      let res := st.cwd.add_child dirNode t
      if res.snd then
        ({ st with
            cwd := res.fst
            operationLog := st.operationLog ++
              [logLine t ("Folder '" ++ name ++ "' created")] },
          true, "Created directory '" ++ name ++ "'")
      else (st, false, "Failed to create directory '" ++ name ++ "'")
  else (st, false, v.snd)

/-- Embeds `FileSystemManager.delete`: not-found check, the non-empty
directory guard when `recursive` is false, then removal (dropping the
child drops the whole subtree, since the map entry is the one owning
reference) and logging. -/
def delete (st : FS) (name : String) (recursive : Bool) (t : Nat) : FS × Bool × String :=
  match st.cwd.get_child name with
  | none => (st, false, "'" ++ name ++ "' not found")
  | some node =>
    if node.isDir ∧ ¬node.childrenOf.isEmpty ∧ ¬recursive then
      (st, false, "Directory '" ++ name ++ "' is not empty. Use 'delete " ++ name ++ " --recursive'")
    else
      let res := st.cwd.remove_child name t
      if res.snd then
        let kind := if node.isDir then "Folder" else "File"
        ({ st with
            cwd := res.fst
            operationLog := st.operationLog ++
              [logLine t (kind ++ " '" ++ name ++ "' deleted")] },
          true, "Deleted '" ++ name ++ "'")
      else (st, false, "Failed to delete '" ++ name ++ "'")

/-- The in-place mutation `node.name = new_name` plus the file-only
extension re-derivation done by `FileSystemManager.rename`; every other
attribute — created_at, modified_at, size, access mode, and a directory's
children — is untouched. -/
def Node.renameNode (n : Node) (newName : String) : Node :=
  match n with
  | .file _ c m s a _ => .file newName c m s a (extOf newName)
  | .dir _ c m s a ch => .dir newName c m s a ch

/-- Embeds `FileSystemManager.rename`: validate the new name, look up the
old one, reject collisions, then remove the entry, mutate the node's name
(re-deriving a file's extension) and re-insert it, logging the rename. -/
def rename (st : FS) (oldName newName : String) (t : Nat) : FS × Bool × String :=
  let v := _validate_name newName
  if v.fst then
    match st.cwd.get_child oldName with
    | none => (st, false, "'" ++ oldName ++ "' not found")
    | some node =>
      if st.cwd.has_child newName then
        (st, false, "'" ++ newName ++ "' already exists")
      else
        let d1 := (st.cwd.remove_child oldName t).fst
        let node' := node.renameNode newName
        let d2 := (d1.add_child node' t).fst
        let kind := if node.isDir then "Folder" else "File"
        ({ st with
            cwd := d2
            operationLog := st.operationLog ++
              [logLine t (kind ++ " '" ++ oldName ++ "' renamed to '" ++ newName ++ "'")] },
          true, "Renamed '" ++ oldName ++ "' to '" ++ newName ++ "'")
  else (st, false, v.snd)

/-- Embeds `FileSystemManager.get_info`: the ordered five-field metadata
record for a direct child of the cursor, or a not-found failure. -/
def get_info (st : FS) (name : String) : Bool × List (String × String) × String :=
  match st.cwd.get_child name with
  | none => (false, [], "'" ++ name ++ "' not found")
  | some node =>
    (true,
      [("File Name", node.name),
       ("File Size", format_size node.size),
       ("File Type", match node with
         | .file _ _ _ _ _ ext => get_file_type ext
         | .dir _ _ _ _ _ _ => "Directory"),
       ("Access Mode", node.access),
       ("Created On", strftimeCreated node.created)], "")

/-- A zipper into the tree: the directory a resolution pointer refers to,
plus the context up to the root. This is the scratch `target` pointer of
`change_directory`. -/
structure Z where
  d : DirNode
  crumbs : List Crumb

/-- The cursor of the manager as a zipper value. -/
def FS.z (st : FS) : Z := ⟨st.cwd, st.crumbs⟩

/-- Moving the resolution pointer to its parent, clamped at the root:
embeds `if target.parent is not None: target = target.parent`. -/
def Z.up (z : Z) : Z :=
  match z.crumbs with
  | [] => z
  | c :: rest =>
    ⟨⟨c.name, c.created, c.modified, c.size, c.access, c.left ++ z.d.toNode :: c.right⟩, rest⟩

/-- Locate a child by name in an ordered children list, splitting off the
siblings to its left and right (dict lookup, keys unique). -/
def splitAtName (name : String) : List Node → Option (List Node × Node × List Node)
  | [] => none
  | n :: ns =>
    if n.name == name then some ([], n, ns)
    else
      match splitAtName name ns with
      | some (l, x, r) => some (n :: l, x, r)
      | none => none

/-- One segment of `change_directory`'s resolution loop: `..` ascends
(clamped at root), `.` is skipped, any other segment must name an existing
child directory. -/
def cdStep (z : Z) (part : String) : Except String Z :=
  if part = ".." then .ok z.up
  else if part = "." then .ok z
  else
    match splitAtName part z.d.children with
    | none => .error ("Path not found: '" ++ part ++ "'")
    | some (l, n, r) =>
      match n with
      | .file _ _ _ _ _ _ => .error ("'" ++ part ++ "' is not a directory")
      | .dir nm c m sz a ch =>
        .ok ⟨⟨nm, c, m, sz, a, ch⟩,
          ⟨z.d.name, z.d.created, z.d.modified, z.d.size, z.d.access, l, r⟩ :: z.crumbs⟩

/-- The resolution loop of `change_directory` over the path segments,
stopping at the first failing segment. -/
def cdLoop : Z → List String → Except String Z
  | z, [] => .ok z
  | z, p :: ps =>
    match cdStep z p with
    | .error e => .error e
    | .ok z' => cdLoop z' ps

/-- Embeds `FileSystemManager.change_directory`: disabled in single-level
mode; a bare `..` ascends or fails at root; `.` and the empty string are
no-ops; otherwise the path is split on `/` (empty segments dropped),
resolved from the root for absolute paths or from the cursor otherwise
against a scratch pointer, which is committed to the cursor only when
every segment resolves. -/
def change_directory (st : FS) (path : String) : FS × Bool × String :=
  if st.mode = FSMode.SINGLE_LEVEL then
    (st, false, "Directory navigation not available in Single-Level mode")
  else if path = ".." then
    match st.crumbs with
    | [] => (st, false, "Already at root directory")
    | _ :: _ =>
      let z := st.z.up
      ({ st with
          cwd := z.d
          crumbs := z.crumbs }, true, "")
  else if path = "." ∨ path = "" then (st, true, "")
  else
    let start : Z := if startsWithSlash path then ⟨plug st.cwd st.crumbs, []⟩ else st.z
    let parts := (pySplit path '/').filter (fun p => p ≠ "")
    match cdLoop start parts with
    | .error e => (st, false, e)
    | .ok z =>
      ({ st with
          cwd := z.d
          crumbs := z.crumbs }, true, "")

/-- The root-node rendering of `BaseNode.get_path` (the node whose parent
is `None`): `/` for the empty name, else `/name`. -/
def rootPath (rootName : String) : String :=
  if rootName = "" then "/" else "/" ++ rootName

/-- The non-root step of `BaseNode.get_path`: append the name to the
parent's path without duplicating the separator. -/
def extendPath (p : String) (name : String) : String :=
  if p = "/" then "/" ++ name else p ++ "/" ++ name

/-- Embeds `FileSystemManager.get_current_path`: `get_path()` of the
cursor, walking the parent chain up to the root. -/
def FS.get_current_path (st : FS) : String :=
  match st.crumbs.reverse.map Crumb.name with
  | [] => rootPath st.cwd.name
  | r :: rest => (rest ++ [st.cwd.name]).foldl extendPath (rootPath r)

/-- One record returned by `list_contents` (the Python dict with keys
name, type, size, created, as a fixed-field struct). -/
structure Entry where
  ename : String
  ekind : String
  esize : String
  ecreated : String

/-- The sort key comparison of `list_contents`: Python's `sorted` with key
`(x['type'] == 'File', x['name'])` — directories before files, then
lexicographically by name. -/
def entryLe (a b : Entry) : Bool :=
  let fa := a.ekind == "File"
  let fb := b.ekind == "File"
  (!fa && fb) || (fa == fb && decide (a.ename ≤ b.ename))

/-- Stable insertion of an element into a list sorted by `entryLe`: the
element goes before the first entry it compares less-or-equal to, so an
earlier element precedes later equal-keyed ones. Together with
`sortEntries` this models Python's stable `sorted`. -/
def insEntry (x : Entry) : List Entry → List Entry
  | [] => [x]
  | y :: ys => if entryLe x y then x :: y :: ys else y :: insEntry x ys

/-- Stable ascending sort by `entryLe`, modelling Python `sorted` (any two
stable ascending sorts under a total preorder agree, so insertion sort
stands in for timsort). -/
def sortEntries : List Entry → List Entry
  | [] => []
  | x :: xs => insEntry x (sortEntries xs)

/-- Embeds `FileSystemManager.list_contents`: one record per direct child
of the cursor, sorted stably by the tuple key. -/
def list_contents (st : FS) : List Entry :=
  sortEntries (st.cwd.children.map (fun node =>
    ⟨node.name, if node.isDir then "Dir" else "File",
      format_size node.size, strftimeListed node.created⟩))

/-- An atom of the regular expressions produced by `_matches_pattern`'s
translation: a literal character or the any-character `.`. -/
inductive RAtom where
  | lit (c : Char)
  | anyc

/-- A token of those regular expressions: an atom, an atom under `*`, or
an atom under `+`. This is the fragment of Python `re` syntax reachable
from the translated patterns this development evaluates. -/
inductive RTok where
  | once (a : RAtom)
  | star (a : RAtom)
  | plus (a : RAtom)

/-- Whether an atom matches one character, under `re.IGNORECASE`
(case-insensitive character comparison); the any-character atom `.`
matches every character except a newline, since `re.match` is called
without `DOTALL`. -/
def ratomMatch (a : RAtom) (c : Char) : Bool :=
  match a with
  | .lit l => l.toLower == c.toLower
  | .anyc => !(c == '\n')

/-- Matching a token sequence against a whole character list: the
semantics of Python `re.match` on `^tokens$`. -/
def reMatch : List RTok → List Char → Bool
  | [], s => s.isEmpty
  | .once a :: ts, s =>
    match s with
    | [] => false
    | c :: cs => ratomMatch a c && reMatch ts cs
  | .star a :: ts, s =>
    reMatch ts s ||
      (match s with
       | [] => false
       | c :: cs => ratomMatch a c && reMatch (.star a :: ts) cs)
  | .plus a :: ts, s =>
    match s with
    | [] => false
    | c :: cs => ratomMatch a c && reMatch (.star a :: ts) cs
termination_by ts s => (s.length, ts.length)
decreasing_by all_goals (simp_all; try omega)

mutual

/-- Parse the translated pattern into tokens: `\` escapes the next
character, `.` is the any-character atom, every other character is a
literal atom; each atom may carry a postfix `*` or `+`. -/
def parseRegex : List Char → List RTok
  | [] => []
  | c :: rest =>
    if c = '\\' then parseEsc rest
    else if c = '.' then withPost .anyc rest
    else withPost (.lit c) rest
termination_by l => (l.length, 0)
decreasing_by all_goals (simp_all; try omega)

/-- The continuation after a `\` escape: the next character becomes a
literal atom (a trailing lone backslash is kept literal). -/
def parseEsc : List Char → List RTok
  | [] => [.once (.lit '\\')]
  | c2 :: rest2 => withPost (.lit c2) rest2
termination_by l => (l.length, 2)
decreasing_by all_goals (simp_all; try omega)

/-- Attach a postfix `*` or `+` to the atom just parsed, if present. -/
def withPost (a : RAtom) : List Char → List RTok
  | [] => [.once a]
  | c :: rest =>
    if c = '*' then .star a :: parseRegex rest
    else if c = '+' then .plus a :: parseRegex rest
    else .once a :: parseRegex (c :: rest)
termination_by l => (l.length, 1)
decreasing_by all_goals (simp_all; try omega)

end

/-- The textual regex translation done by `_matches_pattern`: the three
`str.replace` passes (`.` to `\.`, `*` to `.*`, `?` to `.`), which act
independently per character of the original pattern. -/
def translateChar (c : Char) : List Char :=
  if c = '.' then ['\\', '.']
  else if c = '*' then ['.', '*']
  else if c = '?' then ['.']
  else [c]

/-- The translated pattern body (the regex between the added `^` and `$`). -/
def translatePattern (p : String) : List Char :=
  p.data.flatMap translateChar

/-- Embeds `FileSystemManager._matches_pattern`: translate the pattern and
match the whole name against `^body$` with `re.IGNORECASE`. Python's `$`
also accepts a single trailing newline before the end, hence the second
disjunct. The regex engine modelled here covers the token fragment
`\c`, `.`, postfix `*`/`+` and literals — the constructs reachable from
translated patterns evaluated in this development. -/
def matches_pattern (name pattern : String) : Bool :=
  let toks := parseRegex (translatePattern pattern)
  reMatch toks name.data ||
    (name.data.getLast? == some '\n' && reMatch toks name.data.dropLast)

/-- One record returned by `search` (the Python dict with keys name, path,
type, size, as a fixed-field struct). -/
structure SRec where
  sname : String
  spath : String
  skind : String
  ssize : String

mutual

/-- Embeds the per-child body of `_search_recursive`: test the child's
name, then descend into it if it is a directory. `pp` is the path of the
parent, so the child's `get_path()` is `extendPath pp`. -/
def searchNode (q pp : String) (n : Node) : List SRec :=
  (if matches_pattern n.name q then
    [⟨n.name, extendPath pp n.name,
      if n.isDir then "Dir" else "File", format_size n.size⟩]
   else []) ++
  (match n with
   | .file _ _ _ _ _ _ => []
   | .dir nm _ _ _ _ ch => searchList q (extendPath pp nm) ch)

/-- Embeds the loop of `_search_recursive` over a children list. -/
def searchList (q pp : String) : List Node → List SRec
  | [] => []
  | c :: cs => searchNode q pp c ++ searchList q pp cs

end

/-- Embeds `FileSystemManager.search`: collect the matches below the
cursor, then append one SEARCH log line naming the directory of the first
result (its path's second-to-last segment, or `Root`), or a no-results
line. -/
def search (st : FS) (query : String) (t : Nat) : FS × List SRec :=
  let results := searchList query st.get_current_path st.cwd.children
  match results with
  | [] =>
    ({ st with operationLog := st.operationLog ++
        [logLine t ("Search performed for '" ++ query ++ "' – No results found")] },
      [])
  | r :: _ =>
    let parts := pySplit r.spath '/'
    let foundIn :=
      if 1 < parts.length ∧ parts.getD (parts.length - 2) "" ≠ "" then
        parts.getD (parts.length - 2) ""
      else "Root"
    ({ st with operationLog := st.operationLog ++
        [logLine t ("Search performed for '" ++ query ++ "' – Found in " ++ foundIn)] },
      results)

mutual

/-- Embeds the per-child rendering of `_build_tree`: the connector is
` └── ` for the last child and ` ├── ` otherwise; a directory renders its
name with a trailing `/` and recurses with the prefix extended by five
blanks after a last child and ` │   ` otherwise; a file renders plain. -/
def renderChild (pfx : String) (n : Node) (isLast : Bool) : String :=
  match n with
  | .file nm _ _ _ _ _ =>
    pfx ++ (if isLast then " └── " else " ├── ") ++ nm ++ "\n"
  | .dir nm _ _ _ _ ch =>
    pfx ++ (if isLast then " └── " else " ├── ") ++ nm ++ "/\n" ++
      buildList (pfx ++ (if isLast then "     " else " │   ")) ch

/-- Embeds the loop of `_build_tree` over `directory.children`, flagging
the final element as the last child. -/
def buildList (pfx : String) : List Node → String
  | [] => ""
  | [c] => renderChild pfx c true
  | c :: c2 :: cs => renderChild pfx c false ++ buildList pfx (c2 :: cs)

end

/-- Embeds `FileSystemManager.get_tree`: `_build_tree` of the cursor with
the empty prefix. -/
def get_tree (st : FS) : String :=
  buildList "" st.cwd.children

/-- Models Python `str.rstrip()`: drop trailing whitespace. -/
def pyRstrip (s : String) : String :=
  ⟨(s.data.reverse.dropWhile (fun c =>
      c = ' ' ∨ c = '\n' ∨ c = '\t' ∨ c = '\r')).reverse⟩

/-- Embeds `FileSystemManager.get_full_tree`: a `Root/` header, then the
rendering of the root directory (rebuilt from the zipper), right-stripped. -/
def get_full_tree (st : FS) : String :=
  pyRstrip ("Root/\n" ++ buildList "" (plug st.cwd st.crumbs).children)

/-- Embeds `FileSystemManager.get_logs`. -/
def get_logs (st : FS) : List String :=
  st.operationLog

/-- Modelled from the spec's words for comparison with the code (claim on
`search` matching): shell-style wildcard matching where `*` matches any
run of characters, `?` any single character, every other pattern
character matches itself, case-insensitively, anchored to the full name. -/
def specGlobCore : List Char → List Char → Bool
  | [], s => s.isEmpty
  | p :: ps, s =>
    if p = '*' then
      specGlobCore ps s ||
        (match s with
         | [] => false
         | _ :: cs => specGlobCore (p :: ps) cs)
    else
      match s with
      | [] => false
      | c :: cs => (if p = '?' then true else p.toLower == c.toLower) && specGlobCore ps cs
termination_by p s => (s.length, p.length)
decreasing_by all_goals (simp_all; try omega)

/-- The spec-side matcher on strings: does `name` match the shell-style
pattern `q`? -/
def specGlobMatches (q name : String) : Bool :=
  specGlobCore q.data name.data

/-- The regex metacharacters that `_matches_pattern` leaves unescaped
(everything the translation does not rewrite: `\x7b` and `\x7d` are the
braces). A pattern avoiding these is interpreted by the regex engine
exactly as a shell glob. -/
def regexMeta : List Char := ['\\', '+', '(', ')', '[', ']', '\x7b', '\x7d', '|', '^', '$']

/-- Patterns whose characters never reach the regex engine as operators:
no unescaped metacharacter survives translation. -/
def noMeta (q : String) : Prop := ∀ c ∈ q.data, c ∉ regexMeta

instance (q : String) : Decidable (noMeta q) := by
  unfold noMeta; infer_instance

/-- The token a glob character becomes after translation and parsing, for
patterns without surviving metacharacters. -/
def tokOf (c : Char) : RTok :=
  if c = '*' then .star .anyc
  else if c = '?' then .once .anyc
  else .once (.lit c)

mutual

/-- Modelled from the spec's words for comparison with the code (claim on
tree rendering): render a children list where each child is introduced by
`corner` if last and `branch` otherwise, directories carry a trailing `/`
and recurse with the prefix extended by `fill` under a last child and by
`bar` otherwise, in insertion order. -/
def renderWithChild (branch corner bar fill pfx : String) (n : Node) (isLast : Bool) : String :=
  match n with
  | .file nm _ _ _ _ _ => pfx ++ (if isLast then corner else branch) ++ nm ++ "\n"
  | .dir nm _ _ _ _ ch =>
    pfx ++ (if isLast then corner else branch) ++ nm ++ "/\n" ++
      renderWithList branch corner bar fill (pfx ++ (if isLast then fill else bar)) ch

/-- The children loop of the spec-side renderer. -/
def renderWithList (branch corner bar fill pfx : String) : List Node → String
  | [] => ""
  | [c] => renderWithChild branch corner bar fill pfx c true
  | c :: c2 :: cs =>
    renderWithChild branch corner bar fill pfx c false ++
      renderWithList branch corner bar fill pfx (c2 :: cs)

end

/-- One command against the manager, with its external inputs (timestamps,
random draw) attached: the alphabet of reachable-state induction. -/
inductive Op where
  | opSetMode (m : String) (t : Nat)
  | opCreateFile (name : String) (size? : Option Nat) (randKB t : Nat)
  | opCreateDir (name : String) (t : Nat)
  | opDelete (name : String) (recursive : Bool) (t : Nat)
  | opRename (a b : String) (t : Nat)
  | opCd (p : String)
  | opSearch (q : String) (t : Nat)

/-- Run one command, keeping only the state (the message is returned to
the presentation layer). -/
def applyOp (st : FS) : Op → FS
  | .opSetMode m t => (set_mode st m t).fst
  | .opCreateFile name size? randKB t => (create_file st name size? randKB t).fst
  | .opCreateDir name t => (create_directory st name t).fst
  | .opDelete name recursive t => (delete st name recursive t).fst
  | .opRename a b t => (rename st a b t).fst
  | .opCd p => (change_directory st p).fst
  | .opSearch q t => (search st q t).fst

/-- Run a command sequence from the freshly constructed manager. -/
def runOps (ops : List Op) (t0 : Nat) : FS :=
  ops.foldl applyOp (FS.init t0)

mutual

/-- Every directory node in this subtree has size 0. -/
def nodeOK : Node → Bool
  | .file _ _ _ _ _ _ => true
  | .dir _ _ _ sz _ ch => sz == 0 && listOK ch

/-- Every directory node in these subtrees has size 0. -/
def listOK : List Node → Bool
  | [] => true
  | c :: cs => nodeOK c && listOK cs

end

/-- The cursor directory and everything below it satisfy the
zero-directory-size invariant. -/
def dirOK (d : DirNode) : Bool :=
  d.size == 0 && listOK d.children

/-- A zipper context level satisfies the zero-directory-size invariant. -/
def crumbOK (c : Crumb) : Bool :=
  c.size == 0 && listOK c.left && listOK c.right

/-- The whole manager state satisfies the zero-directory-size invariant:
every directory in the tree (reconstructed from the zipper) has size 0. -/
def fsOK (st : FS) : Bool :=
  dirOK st.cwd && st.crumbs.all crumbOK


/-- One step of the nesting scenario of C4: create a directory `d` in the
current directory of a hierarchical-mode manager, then enter it. -/
def nestOnce (st : FS) : FS :=
  (change_directory ((create_directory st "d" 0).fst) "d").fst

/-- The nesting scenario iterated from the freshly constructed manager
(hierarchical mode, fresh root). -/
def nest : Nat → FS
  | 0 => FS.init 0
  | k + 1 => nestOnce (nest k)

/-- A two-level state for exercising the tree renderer: the root contains
a directory `a` which contains a file `b`. -/
def stC8 : FS :=
  ⟨⟨"", 0, 0, 0, "Read / Write",
    [Node.dir "a" 0 0 0 "Read / Write" [Node.file "b" 0 0 5 "Read / Write" ""]]⟩,
   [], "hierarchical", 10, []⟩


theorem DirNode.has_child_of_get_child (d : DirNode) (name : String) (n : Node)
    (h : d.get_child name = some n) : d.has_child name = true := by
  have hm := List.mem_of_find?_eq_some h
  have hp := List.find?_some h
  exact List.any_eq_true.mpr ⟨n, hm, hp⟩

/-- C1: every operation of the manager (`set_mode`, `create_file`,
`create_directory`, `delete`, `rename`, `change_directory`) leaves the
whole state — tree, cursor, mode and log — exactly as before the call
whenever it returns a failure result; in particular a failing
`change_directory` leaves the cursor unchanged, because the scratch
resolution pointer is committed only on full success. -/
theorem C1_failure_leaves_state_unchanged (st : FS) (t : Nat) :
    (∀ m, (set_mode st m t).snd.fst = false → (set_mode st m t).fst = st) ∧
    (∀ name size? randKB, (create_file st name size? randKB t).snd.fst = false →
      (create_file st name size? randKB t).fst = st) ∧
    (∀ name, (create_directory st name t).snd.fst = false →
      (create_directory st name t).fst = st) ∧
    (∀ name r, (delete st name r t).snd.fst = false → (delete st name r t).fst = st) ∧
    (∀ a b, (rename st a b t).snd.fst = false → (rename st a b t).fst = st) ∧
    (∀ p, (change_directory st p).snd.fst = false → (change_directory st p).fst = st) := by
  refine ⟨?_, ?_, ?_, ?_, ?_, ?_⟩
  · intro m
    simp only [set_mode]
    repeat' split
    all_goals (intro h; first | rfl | simp at h)
  · intro name size? randKB
    simp only [create_file]
    repeat' split
    all_goals (intro h; first | rfl | simp at h)
  · intro name
    simp only [create_directory]
    repeat' split
    all_goals (intro h; first | rfl | simp at h)
  · intro name r
    simp only [delete]
    repeat' split
    all_goals (intro h; first | rfl | simp at h)
  · intro a b
    simp only [rename]
    repeat' split
    all_goals (intro h; first | rfl | simp at h)
  · intro p
    simp only [change_directory]
    repeat' split
    all_goals (intro h; first | rfl | simp at h)

/-- Witness for C1 at a concrete failing call: `change_directory` on a
missing absolute path fails and leaves the fresh state unchanged. -/
theorem C1_witness :
    (change_directory (FS.init 0) "/nonexistent").snd.fst = false ∧
    (change_directory (FS.init 0) "/nonexistent").fst = FS.init 0 := by
  refine ⟨by decide, ?_⟩
  exact (C1_failure_leaves_state_unchanged (FS.init 0) 0).2.2.2.2.2 "/nonexistent" (by decide)

/-- C3 counterexample: in single-level mode, `create_directory` with the
empty name fails with the name-validation error, not with the
unsupported-operation error the claim predicts for every name. -/
theorem C3_counterexample :
    (create_directory ((set_mode (FS.init 0) "single" 0).fst) "" 0).snd =
      (false, "Name cannot be empty") ∧
    ("Name cannot be empty" : String) ≠
      "Error: Subdirectories not allowed in Single-Level structure" := by
  exact ⟨rfl, by decide⟩

/-- C3 amended: in single-level mode `create_directory` always fails; it
fails with the unsupported-operation error exactly when the name passes
validation, and with the validation error otherwise. -/
theorem C3_single_level_always_fails (st : FS) (name : String) (t : Nat)
    (hm : st.mode = FSMode.SINGLE_LEVEL) :
    (create_directory st name t).snd.fst = false ∧
    ((_validate_name name).fst = true →
      (create_directory st name t).snd.snd =
        "Error: Subdirectories not allowed in Single-Level structure") ∧
    ((_validate_name name).fst = false →
      (create_directory st name t).snd.snd = (_validate_name name).snd) := by
  by_cases hv : (_validate_name name).fst = true
  · simp [create_directory, hv, hm]
  · simp only [Bool.not_eq_true] at hv
    simp [create_directory, hv]

/-- Witness for the amended C3 at a concrete single-level state and a
valid name. -/
theorem C3_witness :
    (set_mode (FS.init 0) "single" 0).fst.mode = FSMode.SINGLE_LEVEL ∧
    (create_directory ((set_mode (FS.init 0) "single" 0).fst) "docs" 1).snd.fst = false := by
  refine ⟨rfl, ?_⟩
  exact (C3_single_level_always_fails ((set_mode (FS.init 0) "single" 0).fst) "docs" 1 rfl).1

/-- C4: in hierarchical mode from a fresh root, creating a directory,
entering it and repeating succeeds at every cursor depth below
`maxDepth = 10`, and the 11th nested `create_directory`, issued with the
cursor at depth 10, fails with the depth-exceeded error. -/
theorem C4_hierarchical_depth_limit :
    (∀ k, k < 10 → (nest k).depth = k ∧ (create_directory (nest k) "d" 0).snd.fst = true) ∧
    (nest 10).depth = 10 ∧
    (create_directory (nest 10) "d" 0).snd =
      (false, "Error: Maximum depth (10 levels) exceeded") := by
  refine ⟨by decide, by decide, by decide⟩

/-- Witness for C4 at the deepest succeeding level. -/
theorem C4_witness :
    (9 < 10) ∧ (create_directory (nest 9) "d" 0).snd.fst = true :=
  ⟨by decide, (C4_hierarchical_depth_limit.1 9 (by decide)).2⟩

/-- C5: in two-level mode, `create_directory` with a valid, non-colliding
name succeeds exactly when the cursor is at the root (depth 0), and at any
depth ≥ 1 it fails with the two-level depth-exceeded error. -/
theorem C5_two_level_root_only (st : FS) (name : String) (t : Nat)
    (hm : st.mode = FSMode.TWO_LEVEL)
    (hv : (_validate_name name).fst = true)
    (hc : st.cwd.has_child name = false) :
    ((create_directory st name t).snd.fst = true ↔ st.depth = 0) ∧
    (1 ≤ st.depth →
      (create_directory st name t).snd =
        (false, "Error: Maximum depth (2 levels) exceeded in Two-Level structure")) := by
  have hadd : (st.cwd.add_child (.dir name t t 0 "Read / Write" []) t).snd = true := by
    simp only [DirNode.has_child, Node.name] at hc
    simp only [DirNode.add_child, Node.name, hc]
    simp
  by_cases hd : 1 ≤ st.depth
  · have hd0 : ¬ st.depth = 0 := by omega
    constructor
    · simp [create_directory, hv, hm, FSMode.SINGLE_LEVEL, FSMode.TWO_LEVEL, hd, hd0]
    · intro _
      simp [create_directory, hv, hm, FSMode.SINGLE_LEVEL, FSMode.TWO_LEVEL, hd]
  · have hd0 : st.depth = 0 := by omega
    constructor
    · simp [create_directory, hv, hm, FSMode.SINGLE_LEVEL, FSMode.TWO_LEVEL,
        FSMode.HIERARCHICAL, hd, hc, hadd, hd0]
    · omega

/-- Witness for C5: at the root of a fresh two-level manager a directory
is created successfully. -/
theorem C5_witness :
    (create_directory ((set_mode (FS.init 0) "two-level" 0).fst) "alpha" 1).snd.fst = true := by
  exact (C5_two_level_root_only ((set_mode (FS.init 0) "two-level" 0).fst) "alpha" 1
    rfl (by decide) (by decide)).1.mpr rfl

/-- C6: `set_mode` with a recognized mode string always succeeds and
resets everything — fresh empty root, cursor at the root, empty log — even
when the requested mode is already active; with an unrecognized string it
fails with the invalid-mode message and changes nothing. -/
theorem C6_set_mode_resets (st : FS) (m : String) (t : Nat) :
    ((m = FSMode.SINGLE_LEVEL ∨ m = FSMode.TWO_LEVEL ∨ m = FSMode.HIERARCHICAL) →
      (set_mode st m t).snd.fst = true ∧
      (set_mode st m t).fst.mode = m ∧
      (set_mode st m t).fst.cwd = ⟨"", t, t, 0, "Read / Write", []⟩ ∧
      (set_mode st m t).fst.crumbs = [] ∧
      (set_mode st m t).fst.operationLog = []) ∧
    (¬(m = FSMode.SINGLE_LEVEL ∨ m = FSMode.TWO_LEVEL ∨ m = FSMode.HIERARCHICAL) →
      set_mode st m t = (st, false, "Invalid mode. Use: single, two-level, or hierarchical")) := by
  constructor
  · intro h
    simp [set_mode, h]
  · intro h
    simp [set_mode, h]

/-- Witness for C6: switching a fresh hierarchical manager to
`hierarchical` again still resets the log and the tree. -/
theorem C6_witness :
    (set_mode ((create_directory (FS.init 0) "d" 0).fst) "hierarchical" 5).snd.fst = true ∧
    (set_mode ((create_directory (FS.init 0) "d" 0).fst) "hierarchical" 5).fst.operationLog = [] ∧
    (set_mode ((create_directory (FS.init 0) "d" 0).fst) "hierarchical" 5).fst.cwd =
      ⟨"", 5, 5, 0, "Read / Write", []⟩ := by
  have h := C6_set_mode_resets ((create_directory (FS.init 0) "d" 0).fst) "hierarchical" 5
  have h1 := h.1 (Or.inr (Or.inr rfl))
  exact ⟨h1.1, h1.2.2.2.2, h1.2.2.1⟩

theorem find?_append_of_none {α : Type} {p : α → Bool} {l1 l2 : List α}
    (h : l1.find? p = none) : (l1 ++ l2).find? p = l2.find? p := by
  induction l1 with
  | nil => rfl
  | cons x xs ih =>
    simp only [List.find?] at h ⊢
    cases hp : p x with
    | true => simp [hp] at h
    | false =>
      simp only [hp] at h ⊢
      exact ih h

theorem Node.renameNode_name (n : Node) (nw : String) : (n.renameNode nw).name = nw := by
  cases n <;> rfl

/-- C7: the create-then-rename round trip — after `create_file "a.txt"` in
an empty current directory and `rename "a.txt" "b.txt"`, the old name is
absent and the new name maps to the same file node with extension
re-derived to `txt` and its own timestamps and size untouched; in general
a successful rename re-keys the very node under the new name, and the
in-place name mutation preserves creation time, modification time, size
and (for directories) the children. -/
theorem C7_rename_round_trip :
    (∀ st t1 t2 sz r, st.cwd.children = [] →
      (rename ((create_file st "a.txt" (some sz) r t1).fst) "a.txt" "b.txt" t2).fst.cwd.get_child
          "a.txt" = none ∧
      (rename ((create_file st "a.txt" (some sz) r t1).fst) "a.txt" "b.txt" t2).fst.cwd.get_child
          "b.txt" = some (Node.file "b.txt" t1 t1 sz "Read / Write" "txt")) ∧
    (∀ st old nw t node, st.cwd.get_child old = some node →
      (_validate_name nw).fst = true → st.cwd.has_child nw = false →
      (rename st old nw t).fst.cwd.get_child nw = some (node.renameNode nw)) ∧
    (∀ (n : Node) (nw : String), (n.renameNode nw).name = nw ∧
      (n.renameNode nw).created = n.created ∧
      (n.renameNode nw).modified = n.modified ∧ (n.renameNode nw).size = n.size ∧
      (n.renameNode nw).childrenOf = n.childrenOf) := by
  refine ⟨?_, ?_, ?_⟩
  · intro st t1 t2 sz r h
    have hva : _validate_name "a.txt" = (true, "") := by decide
    have hvb : _validate_name "b.txt" = (true, "") := by decide
    have hea : extOf "a.txt" = "txt" := by decide
    have heb : extOf "b.txt" = "txt" := by decide
    have e1 : (create_file st "a.txt" (some sz) r t1).fst.cwd.children =
        [Node.file "a.txt" t1 t1 sz "Read / Write" "txt"] := by
      simp [create_file, DirNode.has_child, DirNode.add_child, h, hva, hea]
    have e2 : (rename ((create_file st "a.txt" (some sz) r t1).fst) "a.txt" "b.txt" t2).fst.cwd.children =
        [Node.file "b.txt" t1 t1 sz "Read / Write" "txt"] := by
      simp [rename, DirNode.get_child, DirNode.has_child, DirNode.remove_child,
        DirNode.add_child, e1, hvb, Node.name, Node.renameNode, heb]
    constructor
    · simp [DirNode.get_child, e2, Node.name]
    · simp [DirNode.get_child, e2, Node.name]
  · intro st old nw t node hg hv hc
    have hcold := DirNode.has_child_of_get_child st.cwd old node hg
    simp only [DirNode.has_child] at hcold
    have hcnw : (st.cwd.children.any fun c => c.name == nw) = false := by
      simpa [DirNode.has_child] using hc
    have hd1 : (st.cwd.remove_child old t).fst.children =
        st.cwd.children.eraseP (fun c => c.name == old) := by
      simp [DirNode.remove_child, hcold]
    have hany : ((st.cwd.remove_child old t).fst.children.any fun c => c.name == nw) = false := by
      rw [hd1]
      rw [List.any_eq_false] at hcnw ⊢
      intro x hx
      exact hcnw x ((List.eraseP_sublist st.cwd.children).subset hx)
    have hres : (rename st old nw t).fst.cwd =
        ((st.cwd.remove_child old t).fst.add_child (node.renameNode nw) t).fst := by
      simp [rename, hv, hg, hc]
    have haddc : ((st.cwd.remove_child old t).fst.add_child (node.renameNode nw) t).fst.children =
        (st.cwd.remove_child old t).fst.children ++ [node.renameNode nw] := by
      simp only [DirNode.add_child, Node.renameNode_name, hany]
      simp
    have hfind1 : ((st.cwd.remove_child old t).fst.children.find? fun c => c.name == nw) = none := by
      rw [List.find?_eq_none]
      rw [List.any_eq_false] at hany
      exact hany
    rw [hres]
    simp only [DirNode.get_child, haddc]
    rw [find?_append_of_none hfind1]
    simp [List.find?, Node.renameNode_name]
  · intro n nw
    cases n <;> simp [Node.renameNode, Node.name, Node.created, Node.modified,
      Node.size, Node.childrenOf, extOf]

/-- Witness for C7 at a fresh manager: rename re-keys the concrete file. -/
theorem C7_witness :
    (FS.init 0).cwd.children = [] ∧
    (rename ((create_file (FS.init 0) "a.txt" (some 7) 0 1).fst) "a.txt" "b.txt" 2).fst.cwd.get_child
        "b.txt" = some (Node.file "b.txt" 1 1 7 "Read / Write" "txt") :=
  ⟨rfl, (C7_rename_round_trip.1 (FS.init 0) 1 2 7 0 rfl).2⟩

/-- C8 counterexample: the rendered tree uses a leading blank before each
connector and five blanks of filler under a completed ancestor, so the
output differs from the claim's rendering (bare `└── ` connectors and
exactly four spaces of indentation) on a two-level tree. -/
theorem C8_counterexample :
    get_full_tree stC8 = "Root/\n └── a/\n      └── b" ∧
    "Root/\n └── a/\n      └── b" ≠ "Root/\n└── a/\n    └── b" :=
  ⟨rfl, by decide⟩

mutual

theorem renderChild_eq_spec (n : Node) (pfx : String) (isLast : Bool) :
    renderChild pfx n isLast =
      renderWithChild " ├── " " └── " " │   " "     " pfx n isLast := by
  cases n with
  | file nm c m sz a e => rfl
  | dir nm c m sz a ch =>
    simp only [renderChild, renderWithChild]
    rw [buildList_eq_spec ch]

theorem buildList_eq_spec (ch : List Node) (pfx : String) :
    buildList pfx ch = renderWithList " ├── " " └── " " │   " "     " pfx ch := by
  match ch with
  | [] => rfl
  | [c] =>
    simp only [buildList, renderWithList]
    rw [renderChild_eq_spec c]
  | c :: c2 :: cs =>
    simp only [buildList, renderWithList]
    rw [renderChild_eq_spec c, buildList_eq_spec (c2 :: cs)]

end

/-- C8 amended: `get_tree` and `get_full_tree` render each directory's
children in insertion order, the last child under the corner connector
` └── ` and the others under the branch connector ` ├── ` (each with one
leading blank), accumulating the bar prefix ` │   ` under non-last
ancestors and five blanks under last ancestors, directories shown with a
trailing `/`; `get_full_tree` prepends `Root/` and strips trailing
whitespace. -/
theorem C8_tree_rendering :
    (∀ ch pfx, buildList pfx ch = renderWithList " ├── " " └── " " │   " "     " pfx ch) ∧
    (∀ st : FS, get_tree st = renderWithList " ├── " " └── " " │   " "     " "" st.cwd.children) ∧
    (∀ st : FS, get_full_tree st =
      pyRstrip ("Root/\n" ++
        renderWithList " ├── " " └── " " │   " "     " "" (plug st.cwd st.crumbs).children)) := by
  refine ⟨?_, ?_, ?_⟩
  · intro ch pfx
    exact buildList_eq_spec ch pfx
  · intro st
    simpa only [get_tree] using buildList_eq_spec st.cwd.children ""
  · intro st
    simp only [get_full_tree]
    rw [buildList_eq_spec]

theorem splitAtName_spec (s : String) (l : List Node) :
    ∀ l1 x l2, splitAtName s l = some (l1, x, l2) → x.name = s ∧ l = l1 ++ x :: l2 := by
  induction l with
  | nil => intro l1 x l2 h; simp [splitAtName] at h
  | cons n ns ih =>
    intro l1 x l2 h
    simp only [splitAtName] at h
    split at h
    · rename_i hbeq
      simp only [Option.some.injEq, Prod.mk.injEq] at h
      obtain ⟨hl1, hx, hl2⟩ := h
      subst hl1; subst hx; subst hl2
      exact ⟨eq_of_beq hbeq, by simp⟩
    · cases hrec : splitAtName s ns with
      | none => rw [hrec] at h; simp at h
      | some triple =>
        obtain ⟨l', x', r'⟩ := triple
        rw [hrec] at h
        simp only [Option.some.injEq, Prod.mk.injEq] at h
        obtain ⟨hl1, hx, hl2⟩ := h
        subst hl1; subst hx; subst hl2
        obtain ⟨hn, he⟩ := ih l' x' r' hrec
        exact ⟨hn, by simp [he]⟩

theorem plug_name_ne_dotdot (cs : List Crumb) :
    ∀ d : DirNode, d.name ≠ ".." → (∀ c ∈ cs, c.name ≠ "..") → (plug d cs).name ≠ ".." := by
  induction cs with
  | nil => intro d h1 _; simpa [plug] using h1
  | cons c rest ih =>
    intro d _ h2
    simp only [plug]
    exact ih _ (h2 c (by simp)) (fun c2 hc2 => h2 c2 (by simp [hc2]))

theorem cdStep_no_dotdot (z z' : Z) (p : String)
    (h1 : z.d.name ≠ "..") (h2 : ∀ c ∈ z.crumbs, c.name ≠ "..")
    (hs : cdStep z p = .ok z') :
    z'.d.name ≠ ".." ∧ ∀ c ∈ z'.crumbs, c.name ≠ ".." := by
  simp only [cdStep] at hs
  split at hs
  · obtain rfl : z.up = z' := by simpa using hs
    simp only [Z.up]
    cases hc : z.crumbs with
    | nil => exact ⟨h1, h2⟩
    | cons c rest =>
      constructor
      · show c.name ≠ ".."
        exact h2 c (by rw [hc]; exact List.mem_cons_self c rest)
      · intro c2 hc2
        exact h2 c2 (by rw [hc]; exact List.mem_cons_of_mem c hc2)
  · split at hs
    · obtain rfl : z = z' := by simpa using hs
      exact ⟨h1, h2⟩
    · rename_i hp1 hp2
      split at hs
      · simp at hs
      · rename_i l n r hsplit
        split at hs
        · simp at hs
        · rename_i nm c m sz a ch
          obtain rfl : (⟨⟨nm, c, m, sz, a, ch⟩,
              ⟨z.d.name, z.d.created, z.d.modified, z.d.size, z.d.access, l, r⟩ :: z.crumbs⟩ : Z)
              = z' := by simpa using hs
          have hnm := (splitAtName_spec p z.d.children l _ r hsplit).1
          simp only [Node.name] at hnm
          refine ⟨by simp [hnm]; exact fun hcon => hp1 (hcon ▸ rfl), ?_⟩
          intro c2 hc2
          simp only [List.mem_cons] at hc2
          cases hc2 with
          | inl he => rw [he]; exact h1
          | inr hm => exact h2 c2 hm

theorem cdLoop_no_dotdot (parts : List String) :
    ∀ z z' : Z, z.d.name ≠ ".." → (∀ c ∈ z.crumbs, c.name ≠ "..") →
      cdLoop z parts = .ok z' →
      z'.d.name ≠ ".." ∧ ∀ c ∈ z'.crumbs, c.name ≠ ".." := by
  induction parts with
  | nil =>
    intro z z' h1 h2 hs
    obtain rfl : z = z' := by simpa [cdLoop] using hs
    exact ⟨h1, h2⟩
  | cons p ps ih =>
    intro z z' h1 h2 hs
    simp only [cdLoop] at hs
    cases hstep : cdStep z p with
    | error e => rw [hstep] at hs; simp at hs
    | ok z1 =>
      rw [hstep] at hs
      have hz1 := cdStep_no_dotdot z z1 p h1 h2 hstep
      exact ih z1 z' hz1.1 hz1.2 hs

/-- C9: `.` and `..` pass name validation, so `create_file "."` succeeds
in a directory without such a child, and `create_directory ".."` succeeds
in hierarchical mode below the depth bound; yet a directory named `..`
can never become the cursor through `change_directory`, because a `..`
segment always ascends instead of resolving to a child of that name. -/
theorem C9_dot_dotdot_names :
    _validate_name "." = (true, "") ∧
    _validate_name ".." = (true, "") ∧
    (∀ st sz r t, st.cwd.has_child "." = false →
      (create_file st "." (some sz) r t).snd.fst = true) ∧
    (∀ st t, st.mode = FSMode.HIERARCHICAL → st.depth < st.maxDepth →
      st.cwd.has_child ".." = false → (create_directory st ".." t).snd.fst = true) ∧
    (∀ st path st' msg, st.cwd.name ≠ ".." → (∀ c ∈ st.crumbs, c.name ≠ "..") →
      change_directory st path = (st', true, msg) → st'.cwd.name ≠ "..") := by
  refine ⟨by decide, by decide, ?_, ?_, ?_⟩
  · intro st sz r t hc
    have hv : _validate_name "." = (true, "") := by decide
    simp only [DirNode.has_child, Node.name] at hc
    simp only [create_file, hv, DirNode.has_child, DirNode.add_child, Node.name, hc]
    simp
  · intro st t hm hd hc
    have hv : _validate_name ".." = (true, "") := by decide
    have hd2 : ¬ st.maxDepth ≤ st.depth := by omega
    simp only [DirNode.has_child, Node.name] at hc
    simp only [create_directory, hv, hm, DirNode.has_child, DirNode.add_child, Node.name, hc]
    simp [FSMode.SINGLE_LEVEL, FSMode.TWO_LEVEL, FSMode.HIERARCHICAL, hd2]
  · intro st path st' msg h1 h2 hcd
    simp only [change_directory] at hcd
    split at hcd
    · exact absurd hcd (by simp)
    · split at hcd
      · rcases hcr2 : st.crumbs with _ | ⟨c, rest⟩
        · rw [hcr2] at hcd
          exact absurd hcd (by simp)
        · rw [hcr2] at hcd
          simp only [FS.z, hcr2, Z.up] at hcd
          obtain ⟨heq, -⟩ := Prod.mk.inj hcd
          subst heq
          exact h2 c (by rw [hcr2]; exact List.mem_cons_self c rest)
      · split at hcd
        · obtain ⟨heq, -⟩ := Prod.mk.inj hcd
          subst heq
          exact h1
        · split at hcd
          · exact absurd hcd (by simp)
          · rename_i z hloop
            obtain ⟨heq, -⟩ := Prod.mk.inj hcd
            subst heq
            have hstart : (if startsWithSlash path then (⟨plug st.cwd st.crumbs, []⟩ : Z)
                else st.z).d.name ≠ ".." ∧
                ∀ c ∈ (if startsWithSlash path then (⟨plug st.cwd st.crumbs, []⟩ : Z)
                  else st.z).crumbs, c.name ≠ ".." := by
              by_cases hab : startsWithSlash path = true
              · simp only [hab, if_true]
                exact ⟨plug_name_ne_dotdot st.crumbs st.cwd h1 h2, by simp⟩
              · simp only [Bool.not_eq_true] at hab
                simp only [hab, Bool.false_eq_true, if_false]
                exact ⟨h1, h2⟩
            exact (cdLoop_no_dotdot _ _ z hstart.1 hstart.2 hloop).1

/-- Witness for C9: on a concrete tree holding a directory named `..`
next to a directory `a`, `cd` into `a` succeeds and the cursor is not the
`..`-named directory. -/
theorem C9_witness :
    (change_directory ((create_directory ((create_directory (FS.init 0) ".." 0).fst) "a" 0).fst)
        "a").snd.fst = true ∧
    (change_directory ((create_directory ((create_directory (FS.init 0) ".." 0).fst) "a" 0).fst)
        "a").fst.cwd.name ≠ ".." := by
  refine ⟨by decide, ?_⟩
  exact C9_dot_dotdot_names.2.2.2.2
    ((create_directory ((create_directory (FS.init 0) ".." 0).fst) "a" 0).fst) "a"
    (change_directory ((create_directory ((create_directory (FS.init 0) ".." 0).fst) "a" 0).fst)
      "a").fst ""
    (by decide) (by decide) (by rfl)

theorem withPost_head_not_postfix (a : RAtom) (c : Char) (rest : List Char)
    (h1 : c ≠ '*') (h2 : c ≠ '+') :
    withPost a (c :: rest) = .once a :: parseRegex (c :: rest) := by
  simp [withPost, h1, h2]

theorem withPost_translate (a : RAtom) (l : List Char) (h : ∀ c ∈ l, c ∉ regexMeta) :
    withPost a (l.flatMap translateChar) = .once a :: parseRegex (l.flatMap translateChar) := by
  cases l with
  | nil => simp [withPost, parseRegex]
  | cons d rest =>
    have hd : d ∉ regexMeta := h d (List.mem_cons_self d rest)
    have hplus : d ≠ '+' := fun he => hd (by rw [he]; simp [regexMeta])
    rw [List.flatMap_cons]
    by_cases h1 : d = '.'
    · subst h1
      simp only [translateChar, if_pos rfl, List.cons_append]
      exact withPost_head_not_postfix a '\\' _ (by decide) (by decide)
    · by_cases h2 : d = '*'
      · subst h2
        simp only [translateChar, if_neg (by decide : ¬('*' : Char) = '.'), if_pos rfl,
          List.cons_append]
        exact withPost_head_not_postfix a '.' _ (by decide) (by decide)
      · by_cases h3 : d = '?'
        · subst h3
          simp only [translateChar, if_neg (by decide : ¬('?' : Char) = '.'),
            if_neg (by decide : ¬('?' : Char) = '*'), if_pos rfl, List.cons_append]
          exact withPost_head_not_postfix a '.' _ (by decide) (by decide)
        · simp only [translateChar, if_neg h1, if_neg h2, if_neg h3, List.cons_append,
            List.nil_append]
          exact withPost_head_not_postfix a d _ h2 hplus

theorem parse_translate_noMeta (l : List Char) (h : ∀ c ∈ l, c ∉ regexMeta) :
    parseRegex (l.flatMap translateChar) = l.map tokOf := by
  induction l with
  | nil => simp [parseRegex]
  | cons d rest ih =>
    have hd : d ∉ regexMeta := h d (List.mem_cons_self d rest)
    have hrest : ∀ c ∈ rest, c ∉ regexMeta := fun c hc => h c (List.mem_cons_of_mem d hc)
    have ihr := ih hrest
    have hbs : d ≠ '\\' := fun he => hd (by rw [he]; simp [regexMeta])
    by_cases h1 : d = '.'
    · subst h1
      show parseRegex ('\\' :: '.' :: rest.flatMap translateChar) =
        tokOf '.' :: List.map tokOf rest
      rw [show parseRegex ('\\' :: '.' :: rest.flatMap translateChar) =
          withPost (.lit '.') (rest.flatMap translateChar) from by simp [parseRegex, parseEsc]]
      rw [withPost_translate _ rest hrest, ihr]
      simp +decide [tokOf]
    · by_cases h2 : d = '*'
      · subst h2
        show parseRegex ('.' :: '*' :: rest.flatMap translateChar) =
          tokOf '*' :: List.map tokOf rest
        rw [show parseRegex ('.' :: '*' :: rest.flatMap translateChar) =
            withPost .anyc ('*' :: rest.flatMap translateChar) from by
          simp [parseRegex]]
        rw [show withPost RAtom.anyc ('*' :: rest.flatMap translateChar) =
            .star .anyc :: parseRegex (rest.flatMap translateChar) from by simp [withPost]]
        rw [ihr]
        simp +decide [tokOf]
      · by_cases h3 : d = '?'
        · subst h3
          show parseRegex ('.' :: rest.flatMap translateChar) =
            tokOf '?' :: List.map tokOf rest
          rw [show parseRegex ('.' :: rest.flatMap translateChar) =
              withPost .anyc (rest.flatMap translateChar) from by simp [parseRegex]]
          rw [withPost_translate _ rest hrest, ihr]
          simp +decide [tokOf]
        · have htc : translateChar d = [d] := by simp [translateChar, h1, h2, h3]
          have hflat : (d :: rest).flatMap translateChar = d :: rest.flatMap translateChar := by
            rw [List.flatMap_cons, htc]
            rfl
          rw [hflat]
          rw [show parseRegex (d :: rest.flatMap translateChar) =
              withPost (.lit d) (rest.flatMap translateChar) from by
            simp [parseRegex, hbs, h1]]
          rw [withPost_translate _ rest hrest, ihr]
          simp [tokOf, h2, h3]

theorem mem_of_getLast?_eq_some {α : Type} : ∀ {l : List α} {a : α},
    l.getLast? = some a → a ∈ l := by
  intro l
  induction l with
  | nil => intro a h; simp [List.getLast?] at h
  | cons x xs ih =>
    intro a h
    cases xs with
    | nil =>
      simp only [List.getLast?_singleton, Option.some.injEq] at h
      simp [h]
    | cons y ys =>
      rw [List.getLast?_cons_cons] at h
      exact List.mem_cons_of_mem x (ih h)

theorem reMatch_tokOf (q s : List Char) : '\n' ∉ s →
    reMatch (q.map tokOf) s = specGlobCore q s := by
  induction q, s using specGlobCore.induct with
  | case1 s => intro _; simp [reMatch, specGlobCore]
  | case2 q1 s1 ih1 ih2 =>
    intro hs
    cases s1 with
    | nil =>
      simp only [List.map_cons]
      rw [show tokOf '*' = .star .anyc from rfl]
      simp [reMatch, specGlobCore, ih1 (by simp)]
    | cons c cs =>
      have hc : ('\n' : Char) ≠ c := fun h => hs (by rw [h]; exact List.mem_cons_self c cs)
      have hcs : ('\n' : Char) ∉ cs := fun h => hs (List.mem_cons_of_mem c h)
      have hbc : (c == '\n') = false := by
        simpa using (Ne.symm hc)
      have ih2' : reMatch (RTok.star RAtom.anyc :: List.map tokOf q1) cs =
          specGlobCore ('*' :: q1) cs := ih2 hcs
      simp only [List.map_cons]
      rw [show tokOf '*' = .star .anyc from rfl]
      simp only [reMatch, specGlobCore, ratomMatch, hbc, Bool.not_false, Bool.true_and]
      rw [ih1 hs, ih2']
      simp
  | case3 p ps hp =>
    intro _
    by_cases hq : p = '?'
    · subst hq
      simp [tokOf, reMatch, specGlobCore]
    · simp [tokOf, hq, hp, reMatch, specGlobCore]
  | case4 p ps hp c cs ih =>
    intro hs
    have hc : ('\n' : Char) ≠ c := fun h => hs (by rw [h]; exact List.mem_cons_self c cs)
    have hcs : ('\n' : Char) ∉ cs := fun h => hs (List.mem_cons_of_mem c h)
    have hbc : (c == '\n') = false := by
      simpa using (Ne.symm hc)
    by_cases hq : p = '?'
    · subst hq
      simp [tokOf, reMatch, specGlobCore, ratomMatch, hbc, ih hcs]
    · simp [tokOf, hq, hp, reMatch, specGlobCore, ratomMatch, ih hcs]

/-- C2 counterexample: the query `a+` contains no `*` or `?`, so under the
claim every character would be matched literally and only the name `a+`
could match; but the translation leaves `+` unescaped, the regex engine
reads it as one-or-more, and the name `aaa` matches. -/
theorem C2_counterexample :
    matches_pattern "aaa" "a+" = true ∧ specGlobMatches "a+" "aaa" = false := by
  constructor
  · simp [matches_pattern, translatePattern, translateChar, parseRegex, parseEsc, withPost,
      reMatch, ratomMatch]
  · simp [specGlobMatches, specGlobCore]

/-- C2 amended: for queries containing none of the regex metacharacters
the translation leaves unescaped (backslash, `+`, parentheses, brackets,
braces, `|`, `^`, `$`) and names containing no newline character, the
search match is exactly the shell-style wildcard match — `*` any run,
`?` any single character, the rest literal, case-insensitive, anchored
to the full name; queries with such metacharacters are interpreted as
regular expressions instead, and on names containing a newline the
translated `.` of a `?` or `*` refuses the newline where the glob would
accept it, as the last two conjuncts document. The concrete `*.txt`
examples behave as the claim states. -/
theorem C2_wildcard_matching :
    (∀ name q, noMeta q → ('\n' : Char) ∉ name.data →
      matches_pattern name q = specGlobMatches q name) ∧
    matches_pattern "notes.txt" "*.txt" = true ∧
    matches_pattern "notes.TXT.bak" "*.txt" = false ∧
    matches_pattern "NOTES.TXT" "*.txt" = true ∧
    matches_pattern "a\nb" "a?b" = false ∧
    specGlobMatches "a?b" "a\nb" = true := by
  refine ⟨?_, ?_, ?_, ?_, ?_, ?_⟩
  · intro name q hq hnl
    have hp : parseRegex (translatePattern q) = q.data.map tokOf :=
      parse_translate_noMeta q.data hq
    have hbeq : (name.data.getLast? == some '\n') = false := by
      cases hga : name.data.getLast? with
      | none => rfl
      | some c =>
        have hcm : c ∈ name.data := mem_of_getLast?_eq_some hga
        have hcn : c ≠ '\n' := fun h => hnl (h ▸ hcm)
        simpa using hcn
    simp only [matches_pattern, hp, hbeq, Bool.false_and, Bool.or_false]
    rw [reMatch_tokOf q.data name.data hnl]
    rfl
  · simp [matches_pattern, translatePattern, translateChar, parseRegex, parseEsc, withPost,
      reMatch, ratomMatch]
  · simp [matches_pattern, translatePattern, translateChar, parseRegex, parseEsc, withPost,
      reMatch, ratomMatch]
  · simp [matches_pattern, translatePattern, translateChar, parseRegex, parseEsc, withPost,
      reMatch, ratomMatch]
  · simp [matches_pattern, translatePattern, translateChar, parseRegex, parseEsc, withPost,
      reMatch, ratomMatch]
  · simp [specGlobMatches, specGlobCore]

/-- Witness for the amended C2: the pattern `*.txt` has no surviving
metacharacter and the name `notes.txt` has no newline, so the code's
match coincides with the shell-glob semantics. -/
theorem C2_witness :
    noMeta "*.txt" ∧ ('\n' : Char) ∉ "notes.txt".data ∧
    matches_pattern "notes.txt" "*.txt" = specGlobMatches "*.txt" "notes.txt" := by
  refine ⟨by decide, by decide, ?_⟩
  exact C2_wildcard_matching.1 "notes.txt" "*.txt" (by decide) (by decide)

theorem listOK_append (l1 l2 : List Node) : listOK (l1 ++ l2) = (listOK l1 && listOK l2) := by
  induction l1 with
  | nil => simp [listOK]
  | cons n ns ih => simp [listOK, ih, Bool.and_assoc]

theorem nodeOK_of_mem (l : List Node) (n : Node) (hm : n ∈ l) (h : listOK l = true) :
    nodeOK n = true := by
  induction l with
  | nil => simp at hm
  | cons x xs ih =>
    simp only [listOK, Bool.and_eq_true] at h
    cases hm with
    | head => exact h.1
    | tail _ hm2 => exact ih hm2 h.2

theorem listOK_eraseP (l : List Node) (p : Node → Bool) (h : listOK l = true) :
    listOK (l.eraseP p) = true := by
  induction l with
  | nil => simpa using h
  | cons x xs ih =>
    simp only [listOK, Bool.and_eq_true] at h
    rw [List.eraseP_cons]
    cases hp : p x with
    | true => simpa using h.2
    | false =>
      simp only [Bool.false_eq_true, if_false, listOK, Bool.and_eq_true]
      exact ⟨h.1, ih h.2⟩

theorem nodeOK_renameNode (n : Node) (nw : String) :
    nodeOK (n.renameNode nw) = nodeOK n := by
  cases n <;> simp [Node.renameNode, nodeOK]

theorem nodeOK_toNode (d : DirNode) : nodeOK d.toNode = dirOK d := by
  simp [DirNode.toNode, nodeOK, dirOK]

theorem plug_dirOK (cs : List Crumb) :
    ∀ d, dirOK d = true → cs.all crumbOK = true → dirOK (plug d cs) = true := by
  induction cs with
  | nil => intro d h _; simpa [plug] using h
  | cons c rest ih =>
    intro d h hall
    simp only [List.all_cons, Bool.and_eq_true] at hall
    have hc : crumbOK c = true := hall.1
    simp only [crumbOK, Bool.and_eq_true] at hc
    simp only [plug]
    apply ih _ _ hall.2
    simp only [dirOK, Bool.and_eq_true]
    refine ⟨hc.1.1, ?_⟩
    rw [listOK_append]
    simp only [listOK, Bool.and_eq_true]
    exact ⟨hc.1.2, by rw [nodeOK_toNode]; exact h, hc.2⟩

theorem cdStep_OK (z z' : Z) (p : String)
    (h1 : dirOK z.d = true) (h2 : z.crumbs.all crumbOK = true)
    (hs : cdStep z p = .ok z') :
    dirOK z'.d = true ∧ z'.crumbs.all crumbOK = true := by
  simp only [cdStep] at hs
  split at hs
  · obtain rfl : z.up = z' := by simpa using hs
    simp only [Z.up]
    cases hc : z.crumbs with
    | nil => exact ⟨h1, h2⟩
    | cons c rest =>
      rw [hc] at h2
      simp only [List.all_cons, Bool.and_eq_true] at h2
      have hcOK := h2.1
      simp only [crumbOK, Bool.and_eq_true] at hcOK
      constructor
      · simp only [dirOK, Bool.and_eq_true]
        refine ⟨hcOK.1.1, ?_⟩
        rw [listOK_append]
        simp only [listOK, Bool.and_eq_true]
        exact ⟨hcOK.1.2, by rw [nodeOK_toNode]; exact h1, hcOK.2⟩
      · exact h2.2
  · split at hs
    · obtain rfl : z = z' := by simpa using hs
      exact ⟨h1, h2⟩
    · split at hs
      · simp at hs
      · rename_i l n r hsplit
        split at hs
        · simp at hs
        · rename_i nm c m sz a ch
          obtain rfl : (⟨⟨nm, c, m, sz, a, ch⟩,
              ⟨z.d.name, z.d.created, z.d.modified, z.d.size, z.d.access, l, r⟩ :: z.crumbs⟩ : Z)
              = z' := by simpa using hs
          have hdec := (splitAtName_spec p z.d.children l _ r hsplit).2
          have hld : dirOK z.d = true := h1
          simp only [dirOK, Bool.and_eq_true] at hld
          have hlOK : listOK z.d.children = true := hld.2
          rw [hdec, listOK_append] at hlOK
          simp only [listOK, Bool.and_eq_true] at hlOK
          have hnode : nodeOK (Node.dir nm c m sz a ch) = true := hlOK.2.1
          simp only [nodeOK, Bool.and_eq_true] at hnode
          constructor
          · simp only [dirOK, Bool.and_eq_true]
            exact ⟨hnode.1, hnode.2⟩
          · simp only [List.all_cons, Bool.and_eq_true]
            refine ⟨?_, h2⟩
            simp only [crumbOK, Bool.and_eq_true]
            exact ⟨⟨hld.1, hlOK.1⟩, hlOK.2.2⟩

theorem cdLoop_OK (parts : List String) :
    ∀ z z' : Z, dirOK z.d = true → z.crumbs.all crumbOK = true →
      cdLoop z parts = .ok z' →
      dirOK z'.d = true ∧ z'.crumbs.all crumbOK = true := by
  induction parts with
  | nil =>
    intro z z' h1 h2 hs
    obtain rfl : z = z' := by simpa [cdLoop] using hs
    exact ⟨h1, h2⟩
  | cons p ps ih =>
    intro z z' h1 h2 hs
    simp only [cdLoop] at hs
    cases hstep : cdStep z p with
    | error e => rw [hstep] at hs; simp at hs
    | ok z1 =>
      rw [hstep] at hs
      have hz1 := cdStep_OK z z1 p h1 h2 hstep
      exact ih z1 z' hz1.1 hz1.2 hs

theorem set_mode_fsOK (st : FS) (m : String) (t : Nat) (h : fsOK st = true) :
    fsOK (set_mode st m t).fst = true := by
  simp only [set_mode]
  split
  · simp [fsOK, dirOK, listOK]
  · exact h

theorem create_file_fsOK (st : FS) (name : String) (size? : Option Nat) (randKB t : Nat)
    (h : fsOK st = true) : fsOK (create_file st name size? randKB t).fst = true := by
  simp only [create_file, DirNode.add_child]
  repeat' split
  all_goals first
    | exact h
    | (simp only [fsOK, dirOK, Bool.and_eq_true] at h ⊢
       refine ⟨⟨h.1.1, ?_⟩, h.2⟩
       rw [listOK_append]
       simp [listOK, nodeOK, h.1.2])

theorem create_directory_fsOK (st : FS) (name : String) (t : Nat)
    (h : fsOK st = true) : fsOK (create_directory st name t).fst = true := by
  simp only [create_directory, DirNode.add_child]
  repeat' split
  all_goals first
    | exact h
    | (simp only [fsOK, dirOK, Bool.and_eq_true] at h ⊢
       refine ⟨⟨h.1.1, ?_⟩, h.2⟩
       rw [listOK_append]
       simp [listOK, nodeOK, h.1.2])

theorem delete_fsOK (st : FS) (name : String) (r : Bool) (t : Nat)
    (h : fsOK st = true) : fsOK (delete st name r t).fst = true := by
  simp only [delete, DirNode.remove_child]
  repeat' split
  all_goals first
    | exact h
    | (simp only [fsOK, dirOK, Bool.and_eq_true] at h ⊢
       exact ⟨⟨h.1.1, listOK_eraseP _ _ h.1.2⟩, h.2⟩)

theorem rename_fsOK (st : FS) (a b : String) (t : Nat)
    (h : fsOK st = true) : fsOK (rename st a b t).fst = true := by
  have hOK := h
  simp only [fsOK, dirOK, Bool.and_eq_true] at hOK
  by_cases hv : (_validate_name b).fst = true
  · cases hg : st.cwd.get_child a with
    | none => simpa [rename, hv, hg] using h
    | some node =>
      by_cases hc : st.cwd.has_child b = true
      · simpa [rename, hv, hg, hc] using h
      · have hnode : nodeOK node = true :=
          nodeOK_of_mem _ _ (List.mem_of_find?_eq_some hg) hOK.1.2
        have he : listOK (st.cwd.children.eraseP (fun c => c.name == a)) = true :=
          listOK_eraseP _ _ hOK.1.2
        simp only [rename, hv, hg, hc, DirNode.remove_child, DirNode.add_child]
        repeat' split
        all_goals simp only [fsOK, dirOK, Bool.and_eq_true]
        all_goals refine ⟨⟨hOK.1.1, ?_⟩, hOK.2⟩
        all_goals first
          | exact he
          | exact hOK.1.2
          | (rw [listOK_append]
             simp only [listOK, Bool.and_eq_true]
             exact ⟨he, by rw [nodeOK_renameNode]; exact hnode, trivial⟩)
          | (rw [listOK_append]
             simp only [listOK, Bool.and_eq_true]
             exact ⟨hOK.1.2, by rw [nodeOK_renameNode]; exact hnode, trivial⟩)
  · simpa [rename, hv] using h

theorem change_directory_fsOK (st : FS) (p : String)
    (h : fsOK st = true) : fsOK (change_directory st p).fst = true := by
  simp only [change_directory]
  split
  · exact h
  · split
    · split
      · exact h
      · rename_i c rest heq
        simp only [FS.z, Z.up, heq]
        simp only [fsOK, Bool.and_eq_true] at h ⊢
        rw [heq] at h
        simp only [List.all_cons, Bool.and_eq_true] at h
        have hcOK := h.2.1
        simp only [crumbOK, Bool.and_eq_true] at hcOK
        constructor
        · simp only [dirOK, Bool.and_eq_true]
          refine ⟨hcOK.1.1, ?_⟩
          rw [listOK_append]
          simp only [listOK, Bool.and_eq_true]
          exact ⟨hcOK.1.2, by rw [nodeOK_toNode]; exact h.1, hcOK.2⟩
        · exact h.2.2
    · split
      · exact h
      · split
        · exact h
        · rename_i z hloop
          simp only [fsOK, Bool.and_eq_true] at h ⊢
          have hstart : dirOK (if startsWithSlash p then (⟨plug st.cwd st.crumbs, []⟩ : Z)
              else st.z).d = true ∧
              (if startsWithSlash p then (⟨plug st.cwd st.crumbs, []⟩ : Z)
                else st.z).crumbs.all crumbOK = true := by
            by_cases hab : startsWithSlash p = true
            · simp only [hab, if_true]
              exact ⟨plug_dirOK st.crumbs st.cwd h.1 h.2, by simp⟩
            · simp only [Bool.not_eq_true] at hab
              simp only [hab, Bool.false_eq_true, if_false, FS.z]
              exact h
          exact cdLoop_OK _ _ z hstart.1 hstart.2 hloop

theorem search_fsOK (st : FS) (q : String) (t : Nat)
    (h : fsOK st = true) : fsOK (search st q t).fst = true := by
  simp only [search]
  split <;> exact h

theorem applyOp_fsOK (st : FS) (op : Op) (h : fsOK st = true) :
    fsOK (applyOp st op) = true := by
  cases op with
  | opSetMode m t => exact set_mode_fsOK st m t h
  | opCreateFile name size? randKB t => exact create_file_fsOK st name size? randKB t h
  | opCreateDir name t => exact create_directory_fsOK st name t h
  | opDelete name r t => exact delete_fsOK st name r t h
  | opRename a b t => exact rename_fsOK st a b t h
  | opCd p => exact change_directory_fsOK st p h
  | opSearch q t => exact search_fsOK st q t h

theorem runOps_fsOK (ops : List Op) (t0 : Nat) : fsOK (runOps ops t0) = true := by
  have hgen : ∀ st, fsOK st = true → fsOK (ops.foldl applyOp st) = true := by
    induction ops with
    | nil => intro st h; simpa using h
    | cons op rest ih =>
      intro st h
      simp only [List.foldl_cons]
      exact ih _ (applyOp_fsOK st op h)
  exact hgen (FS.init t0) (by simp [FS.init, fsOK, dirOK, listOK])

theorem mem_insEntry (x e : Entry) (l : List Entry) : x ∈ insEntry e l ↔ x = e ∨ x ∈ l := by
  induction l with
  | nil => simp [insEntry]
  | cons y ys ih =>
    simp only [insEntry]
    split
    · simp [List.mem_cons]
      try tauto
    · simp [List.mem_cons, ih]
      try tauto

theorem mem_sortEntries (x : Entry) (l : List Entry) : x ∈ sortEntries l ↔ x ∈ l := by
  induction l with
  | nil => simp [sortEntries]
  | cons e es ih => simp [sortEntries, mem_insEntry, ih]

theorem nodeOK_dir_size (n : Node) (h : nodeOK n = true) (hd : n.isDir = true) : n.size = 0 := by
  cases n with
  | file nm c m sz a e => simp [Node.isDir] at hd
  | dir nm c m sz a ch =>
    simp only [nodeOK, Bool.and_eq_true] at h
    have := h.1
    simp only [beq_iff_eq] at this
    simpa [Node.size] using this

/-- C10: in every state reachable by running any command sequence from
the freshly constructed manager, every directory node's size is 0 —
nothing ever updates an ancestor directory's size — and consequently
`get_info` and `list_contents` always report a directory's size as
`0 B`. -/
theorem C10_directory_size_always_zero :
    (∀ ops t0, fsOK (runOps ops t0) = true) ∧
    (∀ st : FS, fsOK st = true →
      (∀ name node, st.cwd.get_child name = some node → node.isDir = true →
        node.size = 0 ∧
        ((get_info st name).snd.fst).lookup "File Size" = some "0 B") ∧
      (∀ e ∈ list_contents st, e.ekind = "Dir" → e.esize = "0 B")) := by
  constructor
  · exact runOps_fsOK
  · intro st hok
    have hOK := hok
    simp only [fsOK, dirOK, Bool.and_eq_true] at hOK
    constructor
    · intro name node hg hd
      have hnode : nodeOK node = true :=
        nodeOK_of_mem _ _ (List.mem_of_find?_eq_some hg) hOK.1.2
      have hsz : node.size = 0 := nodeOK_dir_size node hnode hd
      refine ⟨hsz, ?_⟩
      simp only [get_info, hg]
      simp [List.lookup, hsz]
      try decide
    · intro e he hkind
      simp only [list_contents, mem_sortEntries, List.mem_map] at he
      obtain ⟨node, hmem, hfe⟩ := he
      have hnode : nodeOK node = true := nodeOK_of_mem _ _ hmem hOK.1.2
      have hd : node.isDir = true := by
        by_contra hnd
        simp only [Bool.not_eq_true] at hnd
        rw [← hfe] at hkind
        simp [hnd] at hkind
      have hsz : node.size = 0 := nodeOK_dir_size node hnode hd
      rw [← hfe]
      simp [hsz]
      try decide

/-- Witness for C10: after creating one directory in a fresh manager, the
invariant holds, the directory is present with size 0, and `get_info`
reports `0 B`. -/
theorem C10_witness :
    fsOK (runOps [Op.opCreateDir "d" 5] 0) = true ∧
    ((get_info (runOps [Op.opCreateDir "d" 5] 0) "d").snd.fst).lookup "File Size" =
      some "0 B" := by
  refine ⟨C10_directory_size_always_zero.1 [Op.opCreateDir "d" 5] 0, ?_⟩
  exact ((C10_directory_size_always_zero.2 (runOps [Op.opCreateDir "d" 5] 0)
    (C10_directory_size_always_zero.1 [Op.opCreateDir "d" 5] 0)).1 "d"
    (Node.dir "d" 5 5 0 "Read / Write" []) (by rfl) (by rfl)).2
